import Mathlib

/-!
Shallow embedding of the record browsing and aggregation engine of the
metro-stats dashboard (src/app/page.tsx and the unnamed duplicate source
file; the two files contain byte-identical `DataTable` logic).

The `DataTable<T>` component holds four pieces of view state
(`page`, `rowsPerPage`, `searchTerm`, `sortConfig`) and derives
`filteredData`, `sortedData` and `paginatedData` from the supplied record
collection.  Records are mappings from field names to values of mixed
type; here they are embedded as association lists over an inductive
`Value` universe covering the value shapes the dashboard stores in
records (strings, numbers, booleans, and `undefined` for absent fields).

JavaScript semantics embedded below:
  * `String(value).toLowerCase().includes(term.toLowerCase())` for search,
  * the ECMAScript abstract relational comparison (`<`, `>`) restricted to
    the value shapes above for the sort comparator (comparisons involving
    `undefined` are false, since `undefined` coerces to NaN),
  * `Array.prototype.sort`, which is stable per ES2019; it is embedded as
    a stable insertion sort over the user comparator (for a consistent
    comparator every stable sort computes the same list, and for records
    whose compared values are equal the stability lemmas below apply
    directly),
  * `Array.prototype.slice(start, stop)` for non-negative indices,
  * `Math.ceil(n / size)` for the page count, as exact natural ceiling
    division.

Numbers are embedded as `Int`: none of the verified properties depends on
fractional values, and JavaScript number comparison on the non-NaN values
the dashboard produces is the numeric linear order.  String-to-number
coercion (reachable only when a record mixes a numeric string with a
number under one sort key) is approximated by integer parsing; no theorem
below depends on that corner.
-/

namespace MetroStats

/-- A field value as stored in the dashboard's records. -/
inductive Value where
  | str (s : String)
  | num (n : Int)
  | bool (b : Bool)
  | undefined
deriving DecidableEq, Repr

/-- JavaScript `String(value)` for the embedded value shapes. -/
def valueToString : Value → String
  | .str s => s
  | .num n => toString n
  | .bool b => cond b "true" "false"
  | .undefined => "undefined"

/-- A record: a mapping from field names to values (association list,
first binding wins, as for JavaScript object property access). -/
abbrev Rec := List (String × Value)

/-- JavaScript `Object.values(item)`. -/
def objectValues (item : Rec) : List Value :=
  item.map fun kv => kv.2

/-- JavaScript `item[key]`: the bound value, or `undefined` when the
field is absent. -/
def getFieldV (key : String) (item : Rec) : Value :=
  (item.lookup key).getD .undefined

/-- Lexicographic order on character lists: the order JavaScript `<`
uses on two strings. -/
def ltCharList : List Char → List Char → Bool
  | [], [] => false
  | [], _ :: _ => true
  | _ :: _, [] => false
  | a :: as, b :: bs =>
    if a < b then true
    else if b < a then false
    else ltCharList as bs

/-- ECMAScript `ToNumber` on the embedded value shapes (`none` = NaN).
String parsing is approximated by integer parsing. -/
def toNumV : Value → Option Int
  | .num n => some n
  | .bool b => some (cond b 1 0)
  | .str s => s.trim.toInt?
  | .undefined => none

/-- ECMAScript abstract relational comparison `a < b`: string/string
compares lexicographically, otherwise both operands coerce to numbers
and any NaN makes the comparison false. -/
def jsLt : Value → Value → Bool
  | .str x, .str y => ltCharList x.toList y.toList
  | a, b =>
    match toNumV a, toNumV b with
    | some m, some n => decide (m < n)
    | _, _ => false

/-- ECMAScript `a > b`, defined as the relational comparison `b < a`. -/
def jsGt (a b : Value) : Bool :=
  jsLt b a

/-- `startsWithCL needle hay`: `needle` occurs at the start of `hay`. -/
def startsWithCL : List Char → List Char → Bool
  | [], _ => true
  | _ :: _, [] => false
  | a :: as, b :: bs => a == b && startsWithCL as bs

/-- `containsSub needle hay`: `needle` occurs contiguously in `hay`. -/
def containsSub : List Char → List Char → Bool
  | n, [] => startsWithCL n []
  | n, h :: hs => startsWithCL n (h :: hs) || containsSub n hs

/-- JavaScript `s.toLowerCase()`, as the character list of the result:
each character mapped to lower case (simple case mapping). -/
def jsToLower (s : String) : List Char :=
  s.toList.map Char.toLower

/-- JavaScript `s.includes(t)` on character lists. -/
def jsIncludes (s t : List Char) : Bool :=
  containsSub t s

/-- The search predicate of `DataTable`:
`Object.values(item).some(value =>
   String(value).toLowerCase().includes(searchTerm.toLowerCase()))`. -/
def matchesSearch (searchTerm : String) (item : Rec) : Bool :=
  (objectValues item).any fun value =>
    jsIncludes (jsToLower (valueToString value)) (jsToLower searchTerm)

/-- `filteredData = searchable ? data.filter(...) : data`. -/
def filteredData (searchable : Bool) (searchTerm : String) (data : List Rec) : List Rec :=
  if searchable then data.filter (matchesSearch searchTerm) else data

/-- `sortDirection` values of the sort configuration. -/
inductive Direction where
  | asc
  | desc
deriving DecidableEq, Repr

/-- The `sortConfig` state value: `{ key, direction }`. -/
structure SortConfig where
  key : String
  direction : Direction
deriving DecidableEq, Repr

/-- The view state of one `DataTable` instance: the four `useState`
cells `page`, `rowsPerPage`, `searchTerm`, `sortConfig`. -/
structure DataTableState where
  page : Nat
  rowsPerPage : Nat
  searchTerm : String
  sortConfig : Option SortConfig
deriving DecidableEq, Repr

/-- The initial view state: `useState(0)`, `useState(10)`,
`useState('')`, `useState(null)`. -/
def initialState : DataTableState :=
  { page := 0, rowsPerPage := 10, searchTerm := "", sortConfig := none }

/-- The sort comparator of `DataTable`, with `aValue = a[sortConfig.key]`
and `bValue = b[sortConfig.key]`:
if `aValue < bValue` return `asc ? -1 : 1`;
if `aValue > bValue` return `asc ? 1 : -1`; else return `0`. -/
def jsCompare (key : String) (dir : Direction) (a b : Rec) : Int :=
  let aValue := getFieldV key a
  let bValue := getFieldV key b
  if jsLt aValue bValue then (if dir = .asc then -1 else 1)
  else if jsGt aValue bValue then (if dir = .asc then 1 else -1)
  else 0

/-- Insert one element into a list, after every element that does not
compare strictly greater: the placement a stable sort gives the
originally-first element of the remaining input. -/
def insertStable (cmp : α → α → Int) (x : α) : List α → List α
  | [] => [x]
  | y :: ys => if cmp x y ≤ 0 then x :: y :: ys else y :: insertStable cmp x ys

/-- Stable comparator sort: the embedding of `Array.prototype.sort`
(stable per ES2019). -/
def stableSort (cmp : α → α → Int) : List α → List α
  | [] => []
  | x :: xs => insertStable cmp x (stableSort cmp xs)

/-- `sortedData = sortable && sortConfig
      ? [...filteredData].sort(comparator) : filteredData`. -/
def sortedData (sortable : Bool) (cfg : Option SortConfig) (l : List Rec) : List Rec :=
  match sortable, cfg with
  | true, some c => stableSort (jsCompare c.key c.direction) l
  | _, _ => l

/-- JavaScript `array.slice(start, stop)` for non-negative indices. -/
def jsSlice (start stop : Nat) (l : List α) : List α :=
  (l.drop start).take (stop - start)

/-- `paginatedData = pagination
      ? sortedData.slice(page * rowsPerPage, page * rowsPerPage + rowsPerPage)
      : sortedData`. -/
def paginatedData (pagination : Bool) (page rowsPerPage : Nat) (l : List Rec) : List Rec :=
  if pagination then
    jsSlice (page * rowsPerPage) (page * rowsPerPage + rowsPerPage) l
  else l

/-- The visible page, at the component's default props
(`pagination = searchable = sortable = true`): the composition the
component body computes, `paginatedData` of `sortedData` of
`filteredData`. -/
def visibleRecords (data : List Rec) (s : DataTableState) : List Rec :=
  paginatedData true s.page s.rowsPerPage
    (sortedData true s.sortConfig (filteredData true s.searchTerm data))

/-- `handleSort(key)`: `if (!sortable) return;` then direction is
`'desc'` exactly when the current config has the same key with
direction `'asc'`, else `'asc'`; stores `{ key, direction }`.  The
`page` and `searchTerm` cells are not touched. -/
def handleSort (sortable : Bool) (key : String) (s : DataTableState) : DataTableState :=
  if sortable then
    let direction : Direction :=
      match s.sortConfig with
      | some c => if c.key == key && c.direction == Direction.asc then .desc else .asc
      | none => .asc
    { s with sortConfig := some { key := key, direction := direction } }
  else s

/-- The search input's `onChange` handler: `setSearchTerm(e.target.value)`
and nothing else (in particular `page` is not reset). -/
def handleSearchChange (text : String) (s : DataTableState) : DataTableState :=
  { s with searchTerm := text }

/-- The option values of the rows-per-page `<select>`. -/
def rowsPerPageOptions : List Nat := [5, 10, 25, 50, 100]

/-- The rows-per-page `<select>`'s `onChange` handler:
`setRowsPerPage(Number(e.target.value)); setPage(0);` — unconditionally,
with no validation of the value. -/
def handleRowsPerPageChange (value : Nat) (s : DataTableState) : DataTableState :=
  { s with rowsPerPage := value, page := 0 }

/-- `Math.ceil(n / rowsPerPage)`, the page count the pagination controls
compute from `filteredData.length`; exact for `rowsPerPage > 0`. -/
def totalPages (n rowsPerPage : Nat) : Nat :=
  (n + rowsPerPage - 1) / rowsPerPage

/-- Spec-side notion for the filter property: `t` occurs contiguously
inside `s` ("contains ... as a substring").  Used only to state the
specification side of the filter claim, against the executable
`containsSub` that embeds `String.prototype.includes`. -/
def SubstringOf (t s : List Char) : Prop :=
  ∃ u v, u ++ t ++ v = s

/-- One distribution bin: `{ label, count }` (the spec's `Bucket`;
rendered in the source as `ChartDataItem` `{ name, value }` pairs). -/
structure Bucket where
  label : String
  count : Nat
deriving DecidableEq, Repr

/-- Modelled from the spec: the repository contains no `distribute`
function — every distribution the dashboard shows (for example
`ptcPercentageDistribution` in `Dashboard.fetchData`) is a hard-coded
literal array, not computed from the record collection — so the
aggregation operation is modelled from spec §4.1: one `Bucket` per label
of `bucketOrder`, in order, whose `count` is the number of records whose
`classify` result equals that label. -/
def distribute (records : List Rec) (classify : Rec → String)
    (bucketOrder : List String) : List Bucket :=
  bucketOrder.map fun label =>
    { label := label
      count := (records.filter fun r => classify r == label).length }

/-!
Array-identity model for the frame claim.  JavaScript
`Array.prototype.sort` mutates the array object it is called on, so the
no-mutation claim is about array objects, not list values.  The heap
below maps array references (indices) to contents; `data.filter(...)`
allocates a fresh array, the spread `[...filteredData]` allocates a
fresh copy, and `.sort` mutates the array it is called on in place.
-/

/-- The array heap: contents of each allocated array object, indexed by
reference. -/
abbrev Heap := List (List Rec)

/-- Contents of the array object behind a reference. -/
def heapRead (h : Heap) (r : Nat) : List Rec :=
  h.getD r []

/-- Allocate a fresh array object with the given contents; returns its
reference and the new heap. -/
def heapAlloc (h : Heap) (contents : List Rec) : Nat × Heap :=
  (h.length, h ++ [contents])

/-- `arr.sort(cmp)`: mutate the array object behind `r` in place. -/
def heapSortInPlace (h : Heap) (r : Nat) (cmp : Rec → Rec → Int) : Heap :=
  h.set r (stableSort cmp (heapRead h r))

/-- One render of `DataTable` over the array object `dataRef`, with the
flags at their defaults (`searchable`, `sortable`, `pagination` all
true): `data.filter(...)` allocates the filtered array, the sorting
branch spreads it into a fresh copy and sorts that copy in place, and
`slice` reads without writing.  Returns the visible page and the heap
after the render.  The interaction handlers (`handleSearchChange`,
`handleSort`, `handleRowsPerPageChange`, `setPage`) have type
`DataTableState → DataTableState` and never touch the heap, so
quantifying over the state covers every sequence of search, sort and
page operations. -/
def renderPipeline (h : Heap) (dataRef : Nat) (s : DataTableState) :
    List Rec × Heap :=
  let fcontents := (heapRead h dataRef).filter (matchesSearch s.searchTerm)
  let alloc1 := heapAlloc h fcontents
  match s.sortConfig with
  | some c =>
    let alloc2 := heapAlloc alloc1.2 (heapRead alloc1.2 alloc1.1)
    let h3 := heapSortInPlace alloc2.2 alloc2.1 (jsCompare c.key c.direction)
    (jsSlice (s.page * s.rowsPerPage) (s.page * s.rowsPerPage + s.rowsPerPage)
      (heapRead h3 alloc2.1), h3)
  | none =>
    (jsSlice (s.page * s.rowsPerPage) (s.page * s.rowsPerPage + s.rowsPerPage)
      (heapRead alloc1.2 alloc1.1), alloc1.2)

/-- Three sample records with a single `id` field, used by concrete
witnesses. -/
def sampleRecords : List Rec :=
  [[("id", Value.str "a")], [("id", Value.str "b")], [("id", Value.str "c")]]

/-- Eleven sample records `R1` .. `R11` (a single `id` field each), used
to exhibit the stale-page behavior after a search-term change. -/
def staleDemoData : List Rec :=
  (List.range 11).map fun i => [("id", Value.str ("R" ++ toString (i + 1)))]

/-! ### Helper lemmas -/

theorem take_add_aux : ∀ (m n : Nat) (l : List α),
    l.take (m + n) = l.take m ++ (l.drop m).take n
  | 0, n, l => by simp
  | m + 1, n, [] => by simp
  | m + 1, n, a :: l => by
    simp only [Nat.succ_add, List.take_succ_cons, List.drop_succ_cons,
      List.cons_append, List.cons.injEq, true_and]
    exact take_add_aux m n l

theorem startsWithCL_iff : ∀ (n h : List Char),
    startsWithCL n h = true ↔ ∃ t, n ++ t = h
  | [], h => by simp [startsWithCL]
  | a :: as, [] => by simp [startsWithCL]
  | a :: as, b :: bs => by
    simp only [startsWithCL, Bool.and_eq_true, beq_iff_eq,
      startsWithCL_iff as bs]
    constructor
    · rintro ⟨rfl, t, rfl⟩
      exact ⟨t, rfl⟩
    · rintro ⟨t, h⟩
      injection h with h1 h2
      exact ⟨h1, t, h2⟩

theorem containsSub_iff : ∀ (h n : List Char),
    containsSub n h = true ↔ SubstringOf n h
  | [], n => by
    constructor
    · intro hc
      obtain ⟨t, ht⟩ := (startsWithCL_iff n []).1 hc
      obtain ⟨rfl, rfl⟩ := List.append_eq_nil.1 ht
      exact ⟨[], [], rfl⟩
    · rintro ⟨u, v, huv⟩
      have : u = [] ∧ n = [] ∧ v = [] := by
        constructor
        · exact List.append_eq_nil.1 (List.append_eq_nil.1 huv).1 |>.1
        constructor
        · exact List.append_eq_nil.1 (List.append_eq_nil.1 huv).1 |>.2
        · exact (List.append_eq_nil.1 huv).2
      obtain ⟨rfl, rfl, rfl⟩ := this
      rfl
  | b :: bs, n => by
    rw [show containsSub n (b :: bs)
          = (startsWithCL n (b :: bs) || containsSub n bs) from rfl]
    simp only [Bool.or_eq_true, startsWithCL_iff, containsSub_iff bs n]
    constructor
    · rintro (⟨t, ht⟩ | ⟨u, v, huv⟩)
      · exact ⟨[], t, by simpa using ht⟩
      · exact ⟨b :: u, v, by simp [huv]⟩
    · rintro ⟨u, v, huv⟩
      match u, huv with
      | [], huv => exact Or.inl ⟨v, by simpa using huv⟩
      | b' :: u', huv =>
        injection huv with h1 h2
        exact Or.inr ⟨u', v, h2⟩

theorem matchesSearch_iff (searchTerm : String) (item : Rec) :
    matchesSearch searchTerm item = true
      ↔ ∃ value ∈ objectValues item,
          SubstringOf (jsToLower searchTerm)
            (jsToLower (valueToString value)) := by
  simp only [matchesSearch, List.any_eq_true, jsIncludes, containsSub_iff]

theorem matchesSearch_empty (item : Rec) (hne : item ≠ []) :
    matchesSearch "" item = true := by
  match item, hne with
  | kv :: rest, _ =>
    simp only [matchesSearch, List.any_eq_true]
    refine ⟨kv.2, by simp [objectValues], ?_⟩
    rw [jsIncludes, containsSub_iff]
    have hnil : jsToLower "" = ([] : List Char) := rfl
    exact ⟨[], jsToLower (valueToString kv.2), by simp [hnil]⟩

theorem mem_insertStable {cmp : α → α → Int} {x y : α} :
    ∀ l : List α, y ∈ insertStable cmp x l ↔ y = x ∨ y ∈ l
  | [] => by simp [insertStable]
  | z :: zs => by
    by_cases h : cmp x z ≤ 0
    · simp only [insertStable, if_pos h, List.mem_cons]
    · simp only [insertStable, if_neg h, List.mem_cons,
        mem_insertStable zs]
      tauto

theorem filter_insertStable_of_pos {P : α → Bool} {cmp : α → α → Int} {x : α}
    (hx : P x = true)
    (hcmp : ∀ a b, P a = true → P b = true → cmp a b ≤ 0) :
    ∀ l : List α, (insertStable cmp x l).filter P = x :: l.filter P
  | [] => by simp [insertStable, hx]
  | y :: ys => by
    by_cases hc : cmp x y ≤ 0
    · simp [insertStable, if_pos hc, List.filter_cons, hx]
    · have hy : P y = false := by
        cases hPy : P y
        · rfl
        · exact absurd (hcmp x y hx hPy) hc
      simp [insertStable, if_neg hc, List.filter_cons, hy,
        filter_insertStable_of_pos hx hcmp ys]

theorem filter_insertStable_of_neg {P : α → Bool} (cmp : α → α → Int) {x : α}
    (hx : P x = false) :
    ∀ l : List α, (insertStable cmp x l).filter P = l.filter P
  | [] => by simp [insertStable, hx]
  | y :: ys => by
    by_cases hc : cmp x y ≤ 0
    · simp [insertStable, if_pos hc, List.filter_cons, hx]
    · simp [insertStable, if_neg hc, List.filter_cons,
        filter_insertStable_of_neg cmp hx ys]

theorem filter_stableSort {P : α → Bool} {cmp : α → α → Int}
    (hcmp : ∀ a b, P a = true → P b = true → cmp a b ≤ 0) :
    ∀ l : List α, (stableSort cmp l).filter P = l.filter P
  | [] => rfl
  | x :: xs => by
    cases hx : P x
    · simp [stableSort, filter_insertStable_of_neg cmp hx,
        filter_stableSort hcmp xs, List.filter_cons, hx]
    · simp [stableSort, filter_insertStable_of_pos hx hcmp,
        filter_stableSort hcmp xs, List.filter_cons, hx]

theorem stableSort_eq_of_pairwise_zero {cmp : α → α → Int} :
    ∀ l : List α, (∀ a ∈ l, ∀ b ∈ l, cmp a b = 0) → stableSort cmp l = l
  | [], _ => rfl
  | x :: xs, h => by
    have hxs : stableSort cmp xs = xs :=
      stableSort_eq_of_pairwise_zero xs
        (fun a ha b hb => h a (List.mem_cons_of_mem _ ha) b (List.mem_cons_of_mem _ hb))
    rw [stableSort, hxs]
    match xs with
    | [] => rfl
    | y :: ys =>
      have hxy : cmp x y = 0 :=
        h x (List.mem_cons_self _ _) y
          (List.mem_cons_of_mem _ (List.mem_cons_self _ _))
      simp [insertStable, hxy]

theorem ltCharList_self : ∀ cs : List Char, ltCharList cs cs = false
  | [] => rfl
  | a :: as => by
    simp [ltCharList, ltCharList_self as]

theorem jsLt_self (v : Value) : jsLt v v = false := by
  cases v with
  | str s => simp [jsLt, ltCharList_self]
  | num n => simp [jsLt, toNumV]
  | bool b => cases b <;> simp [jsLt, toNumV]
  | undefined => simp [jsLt, toNumV]

theorem jsCompare_eq_zero {key : String} {dir : Direction} {a b : Rec}
    (h : getFieldV key a = getFieldV key b) :
    jsCompare key dir a b = 0 := by
  simp [jsCompare, h, jsGt, jsLt_self]

theorem totalPages_eq_succ {n sz : Nat} (hsz : 0 < sz) (hn : 0 < n) :
    totalPages n sz = (n - 1) / sz + 1 := by
  unfold totalPages
  rw [show n + sz - 1 = (n - 1) + sz by omega, Nat.add_div_right _ hsz]

theorem le_totalPages_mul {sz : Nat} (hsz : 0 < sz) (n : Nat) :
    n ≤ totalPages n sz * sz := by
  rcases Nat.eq_zero_or_pos n with rfl | hn
  · exact Nat.zero_le _
  · rw [totalPages_eq_succ hsz hn, Nat.add_mul, Nat.one_mul]
    have h2 : (n - 1) / sz * sz + (n - 1) % sz = n - 1 := Nat.div_add_mod' _ _
    have h3 : (n - 1) % sz < sz := Nat.mod_lt _ hsz
    omega

theorem totalPages_mul_lt {sz : Nat} (hsz : 0 < sz) (n : Nat) :
    totalPages n sz * sz < n + sz := by
  unfold totalPages
  have h1 : (n + sz - 1) / sz * sz ≤ n + sz - 1 := Nat.div_mul_le_self _ _
  omega

theorem flatten_pages (sz : Nat) (l : List α) :
    ∀ k : Nat,
      ((List.range k).map fun p => jsSlice (p * sz) (p * sz + sz) l).flatten
        = l.take (k * sz)
  | 0 => by simp
  | k + 1 => by
    rw [List.range_succ, List.map_append, List.flatten_append,
      flatten_pages sz l k, Nat.succ_mul, take_add_aux]
    simp [jsSlice, Nat.add_sub_cancel_left]

theorem distribute_cons_label (records : List Rec) (classify : Rec → String)
    (lab : String) (labs : List String) :
    distribute records classify (lab :: labs)
      = { label := lab
          count := (records.filter fun r => classify r == lab).length }
          :: distribute records classify labs := rfl

theorem distribute_nil_count_sum (classify : Rec → String) :
    ∀ bucketOrder : List String,
      ((distribute [] classify bucketOrder).map Bucket.count).sum = 0
  | [] => rfl
  | lab :: labs => by
    rw [distribute_cons_label]
    simp [distribute_nil_count_sum classify labs]

theorem distribute_count_sum_cons (classify : Rec → String) (r : Rec)
    (rs : List Rec) :
    ∀ bucketOrder : List String, bucketOrder.Nodup →
      ((distribute (r :: rs) classify bucketOrder).map Bucket.count).sum
        = ((distribute rs classify bucketOrder).map Bucket.count).sum
            + (if classify r ∈ bucketOrder then 1 else 0)
  | [], _ => by simp [distribute]
  | lab :: labs, hnd => by
    obtain ⟨hlab, hlabs⟩ := List.nodup_cons.1 hnd
    have ih := distribute_count_sum_cons classify r rs labs hlabs
    rw [distribute_cons_label, distribute_cons_label]
    simp only [List.map_cons, List.sum_cons]
    rw [ih]
    simp only [List.filter_cons, beq_iff_eq]
    by_cases hr : classify r = lab
    · have hnotmem : classify r ∉ labs := hr ▸ hlab
      rw [if_pos hr, if_neg hnotmem,
        if_pos (show classify r ∈ lab :: labs from hr ▸ List.mem_cons_self _ _)]
      simp only [List.length_cons]
      omega
    · rw [if_neg hr]
      have hmem : (classify r ∈ lab :: labs) ↔ (classify r ∈ labs) := by
        simp [List.mem_cons, hr]
      by_cases hm : classify r ∈ labs
      · rw [if_pos hm, if_pos (hmem.2 hm)]
        omega
      · rw [if_neg hm, if_neg (fun hc => hm (hmem.1 hc))]
        omega

theorem distribute_count_sum (classify : Rec → String)
    (bucketOrder : List String) (hnd : bucketOrder.Nodup) :
    ∀ records : List Rec,
      (∀ r ∈ records, classify r ∈ bucketOrder) →
      ((distribute records classify bucketOrder).map Bucket.count).sum
        = records.length
  | [], _ => by simp [distribute_nil_count_sum]
  | r :: rs, htot => by
    rw [distribute_count_sum_cons classify r rs bucketOrder hnd,
      distribute_count_sum classify bucketOrder hnd rs
        (fun a ha => htot a (List.mem_cons_of_mem _ ha)),
      if_pos (htot r (List.mem_cons_self _ _))]
    simp

/-! ### Claim theorems -/

/-- C1: the visible page is exactly the three-stage pipeline — filter by
the search term, then sort by the sort configuration (the input order is
preserved when no sort key is set), then slice to
`[pageIndex*pageSize, pageIndex*pageSize + pageSize)` — and consequently
its length is at most `pageSize`. -/
theorem pipeline_order_and_page_bound (data : List Rec) (s : DataTableState) :
    visibleRecords data s
        = jsSlice (s.page * s.rowsPerPage)
            (s.page * s.rowsPerPage + s.rowsPerPage)
            (sortedData true s.sortConfig (filteredData true s.searchTerm data))
      ∧ (visibleRecords data s).length ≤ s.rowsPerPage
      ∧ (s.sortConfig = none →
          sortedData true s.sortConfig (filteredData true s.searchTerm data)
            = filteredData true s.searchTerm data) := by
  refine ⟨rfl, ?_, ?_⟩
  · rw [visibleRecords]
    simp only [paginatedData, if_pos rfl, jsSlice, Nat.add_sub_cancel_left]
    exact List.length_take_le _ _
  · intro hcfg
    rw [hcfg]
    rfl

theorem pipeline_order_witness :
    visibleRecords sampleRecords initialState
        = jsSlice (initialState.page * initialState.rowsPerPage)
            (initialState.page * initialState.rowsPerPage
              + initialState.rowsPerPage)
            (sortedData true initialState.sortConfig
              (filteredData true initialState.searchTerm sampleRecords))
      ∧ (visibleRecords sampleRecords initialState).length
          ≤ initialState.rowsPerPage
      ∧ sortedData true initialState.sortConfig
            (filteredData true initialState.searchTerm sampleRecords)
          = filteredData true initialState.searchTerm sampleRecords :=
  ⟨(pipeline_order_and_page_bound sampleRecords initialState).1,
   (pipeline_order_and_page_bound sampleRecords initialState).2.1,
   (pipeline_order_and_page_bound sampleRecords initialState).2.2 rfl⟩

/-- C2, counterexample to the claim as stated: a record with no fields
is excluded even by the empty search term (`Object.values({}) = []`, so
`[].some(...)` is false), so filtering with `T = ""` does not always
yield the full input collection. -/
theorem filter_empty_term_drops_fieldless_record :
    filteredData true "" [([] : Rec)] ≠ [([] : Rec)] := by
  decide

/-- C2 (amended): a record appears in the filtered result iff the
lower-cased string form of at least one of its field values contains
the lower-cased search term as a substring; filtering with the empty
term yields the full input in original order provided every record has
at least one field (a field-less record is excluded even then). -/
theorem filter_characterization (searchTerm : String) (data : List Rec) :
    (∀ item, item ∈ filteredData true searchTerm data
        ↔ item ∈ data
            ∧ ∃ value ∈ objectValues item,
                SubstringOf (jsToLower searchTerm)
                  (jsToLower (valueToString value)))
      ∧ (searchTerm = "" → (∀ item ∈ data, item ≠ ([] : Rec)) →
          filteredData true searchTerm data = data) := by
  constructor
  · intro item
    rw [filteredData, if_pos rfl]
    simp only [List.mem_filter, matchesSearch_iff]
  · rintro rfl hne
    rw [filteredData, if_pos rfl]
    exact List.filter_eq_self.2 fun a ha => matchesSearch_empty a (hne a ha)

theorem filter_characterization_witness :
    filteredData true "" sampleRecords = sampleRecords :=
  (filter_characterization "" sampleRecords).2 rfl (by decide)

/-- C5: sorting is stable — for every sort key, direction and key value,
the records carrying that key value appear in the sorted output in
exactly the order they had in the (pre-sort) input — and switching
between `asc` and `desc` only negates the comparator. -/
theorem sort_stability (key : String) (dir : Direction) (v : Value)
    (l : List Rec) (a b : Rec) :
    (sortedData true (some { key := key, direction := dir }) l).filter
        (fun r => decide (getFieldV key r = v))
      = l.filter (fun r => decide (getFieldV key r = v))
      ∧ jsCompare key .desc a b = - jsCompare key .asc a b := by
  constructor
  · show (stableSort (jsCompare key dir) l).filter _ = _
    refine filter_stableSort (fun x y hx hy => ?_) l
    have hx' : getFieldV key x = v := of_decide_eq_true hx
    have hy' : getFieldV key y = v := of_decide_eq_true hy
    exact le_of_eq (jsCompare_eq_zero (hx'.trans hy'.symm))
  · by_cases h1 : jsLt (getFieldV key a) (getFieldV key b)
    · simp [jsCompare, h1]
    · by_cases h2 : jsGt (getFieldV key a) (getFieldV key b)
      · simp [jsCompare, h1, h2]
      · simp [jsCompare, h1, h2]

/-- C6: clicking sort with the current key toggles the direction
(`asc` to `desc`, `desc` back to `asc`); with a different key (or with
no current configuration) it sets that key with direction `asc`; the
page index (and the rest of the view state) is left unchanged. -/
theorem handle_sort_toggle (s : DataTableState) (key : String) :
    (s.sortConfig = some { key := key, direction := .asc } →
        handleSort true key s
          = { s with sortConfig := some { key := key, direction := .desc } })
      ∧ (s.sortConfig = some { key := key, direction := .desc } →
          handleSort true key s
            = { s with sortConfig := some { key := key, direction := .asc } })
      ∧ (∀ c : SortConfig, s.sortConfig = some c → c.key ≠ key →
          handleSort true key s
            = { s with sortConfig := some { key := key, direction := .asc } })
      ∧ (s.sortConfig = none →
          handleSort true key s
            = { s with sortConfig := some { key := key, direction := .asc } })
      ∧ (handleSort true key s).page = s.page
      ∧ (handleSort true key s).searchTerm = s.searchTerm
      ∧ (handleSort true key s).rowsPerPage = s.rowsPerPage := by
  refine ⟨?_, ?_, ?_, ?_, ?_, ?_, ?_⟩
  · intro h
    simp [handleSort, h]
  · intro h
    simp [handleSort, h]
  · intro c hc hne
    simp [handleSort, hc, hne]
  · intro h
    simp [handleSort, h]
  · simp [handleSort]
  · simp [handleSort]
  · simp [handleSort]

theorem handle_sort_toggle_witness :
    handleSort true "id"
        { page := 3, rowsPerPage := 10, searchTerm := ""
          sortConfig := some { key := "id", direction := .asc } }
      = { page := 3, rowsPerPage := 10, searchTerm := ""
          sortConfig := some { key := "id", direction := .desc } }
      ∧ (handleSort true "id"
          { page := 3, rowsPerPage := 10, searchTerm := ""
            sortConfig := some { key := "id", direction := .asc } }).page = 3 :=
  ⟨(handle_sort_toggle
      { page := 3, rowsPerPage := 10, searchTerm := ""
        sortConfig := some { key := "id", direction := .asc } } "id").1 rfl,
   (handle_sort_toggle
      { page := 3, rowsPerPage := 10, searchTerm := ""
        sortConfig := some { key := "id", direction := .asc } } "id").2.2.2.2.1⟩

/-- C10: sorting by a key that no record carries (such as the synthetic
`coordinates` column id) is error-free — the comparator is total — and
returns the input sequence unchanged, because both looked-up values are
`undefined` and the comparator returns `0` for every pair. -/
theorem absent_sort_key_preserves_order (key : String) (dir : Direction)
    (l : List Rec) (habs : ∀ r ∈ l, r.lookup key = none) :
    sortedData true (some { key := key, direction := dir }) l = l := by
  have hz : ∀ a ∈ l, ∀ b ∈ l, jsCompare key dir a b = 0 := by
    intro a ha b hb
    have ha' : getFieldV key a = .undefined := by rw [getFieldV, habs a ha]; rfl
    have hb' : getFieldV key b = .undefined := by rw [getFieldV, habs b hb]; rfl
    exact jsCompare_eq_zero (ha'.trans hb'.symm)
  exact stableSort_eq_of_pairwise_zero l hz

theorem absent_sort_key_witness :
    sortedData true (some { key := "coordinates", direction := .asc })
        sampleRecords
      = sampleRecords :=
  absent_sort_key_preserves_order "coordinates" .asc sampleRecords (by decide)

/-- C3, divergence of the code from the claim: the search input's
`onChange` only calls `setSearchTerm`, never `setPage(0)`.  Concretely:
with eleven records `R1` .. `R11`, from page 1 (rows per page 10), the
search term `"R2"` filters down to one record, yet the page index stays
1 and the visible page is empty although `totalFiltered = 1` — the stale
out-of-range page is an observable state. -/
theorem stale_page_after_search_change :
    (handleSearchChange "R2" { initialState with page := 1 }).page = 1
      ∧ (filteredData true
            (handleSearchChange "R2" { initialState with page := 1 }).searchTerm
            staleDemoData).length = 1
      ∧ visibleRecords staleDemoData
          (handleSearchChange "R2" { initialState with page := 1 }) = [] := by
  refine ⟨rfl, ?_, ?_⟩ <;> decide

/-- C4: concatenating the pages `0 .. totalPages - 1` of the
filtered-and-sorted sequence reproduces it exactly; `totalPages` is the
ceiling of `totalFiltered / pageSize` (characterized by the two
inequalities); an empty filtered collection gives `totalPages = 0` and
an empty visible page. -/
theorem pagination_completeness (data : List Rec) (term : String)
    (cfg : Option SortConfig) (sz : Nat) (hsz : 0 < sz) :
    ((List.range
          (totalPages (sortedData true cfg (filteredData true term data)).length
            sz)).map
        fun p =>
          paginatedData true p sz
            (sortedData true cfg (filteredData true term data))).flatten
        = sortedData true cfg (filteredData true term data)
      ∧ (sortedData true cfg (filteredData true term data)).length
          ≤ totalPages (sortedData true cfg (filteredData true term data)).length
                sz
              * sz
      ∧ totalPages (sortedData true cfg (filteredData true term data)).length sz
            * sz
          < (sortedData true cfg (filteredData true term data)).length + sz
      ∧ totalPages 0 sz = 0
      ∧ (sortedData true cfg (filteredData true term data) = [] →
          ∀ p, paginatedData true p sz
              (sortedData true cfg (filteredData true term data)) = []) := by
  set L := sortedData true cfg (filteredData true term data) with hL
  have hpag : (fun p => paginatedData true p sz L)
      = fun p => jsSlice (p * sz) (p * sz + sz) L := by
    funext p
    rw [paginatedData, if_pos rfl]
  refine ⟨?_, le_totalPages_mul hsz _, totalPages_mul_lt hsz _, ?_, ?_⟩
  · rw [hpag, flatten_pages]
    exact List.take_of_length_le (le_totalPages_mul hsz _)
  · rw [totalPages]
    exact Nat.div_eq_of_lt (by omega)
  · intro hnil p
    rw [hnil, paginatedData, if_pos rfl]
    simp [jsSlice]

theorem pagination_completeness_witness :
    ((List.range
          (totalPages (sortedData true none (filteredData true "" sampleRecords)).length
            2)).map
        fun p =>
          paginatedData true p 2
            (sortedData true none (filteredData true "" sampleRecords))).flatten
      = sortedData true none (filteredData true "" sampleRecords) :=
  (pagination_completeness sampleRecords "" none 2 (by decide)).1

/-- C7, counterexample to the claim as stated: the rows-per-page
`onChange` handler performs no validation — invoked with the
non-positive size 0 it changes the state (storing `rowsPerPage = 0`)
instead of rejecting the call and leaving the state unchanged; no
`InvalidPageSize` error exists in the code. -/
theorem page_size_zero_accepted :
    handleRowsPerPageChange 0 initialState ≠ initialState
      ∧ (handleRowsPerPageChange 0 initialState).rowsPerPage = 0 := by
  refine ⟨?_, rfl⟩
  decide

/-- C7 (amended): the rows-per-page handler stores any given size
unconditionally (silently coercing nothing and rejecting nothing) and
resets the page index to 0; non-positive sizes are merely unreachable
from the UI because every offered option value is positive. -/
theorem page_size_no_validation (s : DataTableState) (value : Nat) :
    (handleRowsPerPageChange value s).rowsPerPage = value
      ∧ (handleRowsPerPageChange value s).page = 0
      ∧ (handleRowsPerPageChange value s).searchTerm = s.searchTerm
      ∧ (handleRowsPerPageChange value s).sortConfig = s.sortConfig
      ∧ rowsPerPageOptions.all (fun n => decide (0 < n)) = true :=
  ⟨rfl, rfl, rfl, rfl, by decide⟩

/-- C8: for the distribution aggregation (modelled from the spec, since
the repository hard-codes its distribution arrays), when the classifier
is total over a duplicate-free declared bucket order, the bucket counts
sum to the number of input records — nothing dropped, nothing
double-counted. -/
theorem distribute_total_count (records : List Rec) (classify : Rec → String)
    (bucketOrder : List String) (hnd : bucketOrder.Nodup)
    (htot : ∀ r ∈ records, classify r ∈ bucketOrder) :
    ((distribute records classify bucketOrder).map Bucket.count).sum
      = records.length :=
  distribute_count_sum classify bucketOrder hnd records htot

theorem distribute_total_count_witness :
    ((distribute sampleRecords (fun r => valueToString (getFieldV "id" r))
          ["a", "b", "c"]).map Bucket.count).sum = 3 :=
  distribute_total_count sampleRecords
    (fun r => valueToString (getFieldV "id" r)) ["a", "b", "c"]
    (by decide) (by decide)

/-- C9: no stage of the pipeline mutates the caller's array — filtering
allocates a fresh array and sorting mutates only the fresh spread copy
— so after a render (for any view state, hence after any sequence of
search/sort/page operations) the caller's array object holds its
original contents; moreover the heap-model render computes the same
visible page as the pure pipeline. -/
theorem render_no_mutation (h : Heap) (dataRef : Nat) (s : DataTableState)
    (href : dataRef < h.length) :
    heapRead (renderPipeline h dataRef s).2 dataRef = heapRead h dataRef
      ∧ (renderPipeline h dataRef s).1
          = visibleRecords (heapRead h dataRef) s := by
  obtain ⟨p, rpp, term, cfg⟩ := s
  have hconcat : ∀ (l : Heap) (x : List Rec), heapRead (l ++ [x]) l.length = x := by
    intro l x
    rw [heapRead, List.getD_eq_getElem?_getD, List.getElem?_concat_length]
    rfl
  have happend : ∀ (l : Heap) (x : List Rec) (i : Nat), i < l.length →
      heapRead (l ++ [x]) i = heapRead l i := by
    intro l x i hi
    rw [heapRead, List.getD_eq_getElem?_getD, List.getElem?_append_left hi,
      heapRead, List.getD_eq_getElem?_getD]
  have hset : ∀ (l : Heap) (i j : Nat) (x : List Rec), i ≠ j →
      heapRead (l.set i x) j = heapRead l j := by
    intro l i j x hij
    rw [heapRead, List.getD_eq_getElem?_getD, List.getElem?_set_ne hij,
      heapRead, List.getD_eq_getElem?_getD]
  have hsetself : ∀ (l : Heap) (i : Nat) (x : List Rec), i < l.length →
      heapRead (l.set i x) i = x := by
    intro l i x hi
    rw [heapRead, List.getD_eq_getElem?_getD, List.getElem?_set_self hi]
    rfl
  cases cfg with
  | none =>
    constructor
    · simp only [renderPipeline, heapAlloc]
      exact happend _ _ _ href
    · simp only [renderPipeline, heapAlloc]
      rw [hconcat]
      rfl
  | some c =>
    constructor
    · simp only [renderPipeline, heapAlloc, heapSortInPlace]
      rw [hset _ _ _ _
          (by simp only [List.length_append, List.length_cons, List.length_nil]
              omega),
        happend _ _ _
          (by simp only [List.length_append, List.length_cons, List.length_nil]
              omega),
        happend _ _ _ href]
    · simp only [renderPipeline, heapAlloc, heapSortInPlace]
      rw [hsetself _ _ _
          (by simp only [List.length_append, List.length_cons, List.length_nil]
              omega),
        hconcat, hconcat]
      rfl

theorem render_no_mutation_witness :
    heapRead (renderPipeline [sampleRecords] 0 initialState).2 0
      = heapRead [sampleRecords] 0 :=
  (render_no_mutation [sampleRecords] 0 initialState (by decide)).1

end MetroStats
